import Mathlib

/-!
Verification development for the `Zolmok/project` scaffolding tool
(`src/main.rs`).  The development has three parts:

1. a model of the idempotent config-file text patcher described by the
   specification (the patcher itself is not part of this variant's source,
   only its design is documented; it is modelled from the spec);
2. a model of the sequential external-command runner `run_apps`;
3. a model of the `main` pipeline: directory creation, working-directory
   change, command execution, and the verbatim template-catalog writes.

Machine strings are modelled as `String` / `List Char`; process-level
effects (spawning commands, changing directory, writing files) are
modelled by oracles, and the observable behaviour is an event trace.
-/

namespace Project

/-! ## Character and substring utilities -/

/-- Whitespace test used by the patcher model (space, newline, tab, CR). -/
def isWs (c : Char) : Bool :=
  c = ' ' || c = '\n' || c = '\t' || c = '\r'

/-- `startsWith s p = true` iff `p` is a prefix of `s`. -/
def startsWith : List Char → List Char → Bool
  | _, [] => true
  | [], _ :: _ => false
  | c :: cs, p :: ps => c = p && startsWith cs ps

/-- `containsSubstr s p = true` iff `p` occurs as a contiguous substring of `s`. -/
def containsSubstr : List Char → List Char → Bool
  | [], p => startsWith [] p
  | c :: cs, p => startsWith (c :: cs) p || containsSubstr cs p

theorem startsWith_iff (s p : List Char) : startsWith s p = true ↔ p <+: s := by
  induction p generalizing s with
  | nil => simp [startsWith]
  | cons x xs ih =>
    cases s with
    | nil => simp [startsWith]
    | cons c cs =>
      simp only [startsWith, Bool.and_eq_true, decide_eq_true_eq, ih]
      constructor
      · rintro ⟨rfl, t, rfl⟩
        exact ⟨t, rfl⟩
      · rintro ⟨t, h⟩
        cases h
        exact ⟨rfl, t, rfl⟩

theorem containsSubstr_iff (s p : List Char) : containsSubstr s p = true ↔ p <:+: s := by
  induction s with
  | nil =>
    simp [containsSubstr, startsWith_iff, List.prefix_nil, List.infix_nil]
  | cons c cs ih =>
    simp only [containsSubstr, Bool.or_eq_true, startsWith_iff, ih]
    constructor
    · rintro (h | h)
      · exact h.isInfix
      · exact h.trans (List.suffix_cons c cs).isInfix
    · rintro ⟨l, r, h⟩
      cases l with
      | nil =>
        left
        exact ⟨r, by simpa using h⟩
      | cons x xs =>
        right
        refine ⟨xs, r, ?_⟩
        simpa using congrArg List.tail h

/-! ## The idempotent text patcher (spec-modelled)

Modelled from the spec: this variant of the repository contains no patcher
in `src/` — `vite.config.js` is written as a fixed template — but the
specification (§3, §4.1) defines a `PatchRule` data model and a `patch`
algorithm.  The definitions below follow the spec's words: a malformed-rule
check, an import-marker idempotence check, import prepending, textual
location of the first `<arrayKeyName>:` + whitespace + `[` ... `]` span,
and insertion of the injected expression as the first array element. -/

/-- Modelled from the spec (§3): a declarative description of the edit.
`importMarker` is the distinguishing marker of `importStatement`
(operationally the imported module path, e.g. `@tailwindcss/vite`). -/
structure PatchRule where
  importStatement : List Char
  importMarker : List Char
  arrayKeyName : List Char
  injectedExpression : List Char

/-- A rule is malformed when any required field is empty (spec §4.1). -/
def PatchRule.malformed (r : PatchRule) : Bool :=
  r.importStatement.isEmpty || r.arrayKeyName.isEmpty || r.injectedExpression.isEmpty

/-- Validity of a rule: not malformed, the marker really is a substring of
the import statement (spec §4.1 step 1 describes the marker as a part of
the import line, e.g. the module path inside it), and the import line is a
plain import statement, i.e. contains no `[` (spec §3 requires the rule
fields to be syntactically self-consistent; an import line has no array
bracket). -/
def PatchRule.valid (r : PatchRule) : Prop :=
  r.malformed = false ∧
  containsSubstr r.importStatement r.importMarker = true ∧
  '[' ∉ r.importStatement

/-- Splits a character list at the first `]`: returns the part before it
and the rest beginning with `]`; `none` when there is no `]`.  This is the
non-greedy "shortest run up to the next `]`" of spec §4.1 step 3. -/
def splitAtRB : List Char → Option (List Char × List Char)
  | [] => none
  | c :: cs =>
    if c = ']' then some ([], c :: cs)
    else
      match splitAtRB cs with
      | some (b, t) => some (c :: b, t)
      | none => none

/-- If `s` begins with `pat`, returns the remainder, else `none`. -/
def dropStart : List Char → List Char → Option (List Char)
  | [], s => some s
  | _ :: _, [] => none
  | p :: ps, c :: cs => if c = p then dropStart ps cs else none

/-- Splits off the leading whitespace run. -/
def takeWs : List Char → List Char × List Char
  | [] => ([], [])
  | c :: cs =>
    if isWs c then
      match takeWs cs with
      | (w, r) => (c :: w, r)
    else ([], c :: cs)

/-- Tries to match `<key>:` + whitespace + `[` at the front of `s`; on
success returns the matched head (ending in `[`) and the remainder. -/
def matchHead (key : List Char) (s : List Char) : Option (List Char × List Char) :=
  match dropStart key s with
  | none => none
  | some r1 =>
    match r1 with
    | [] => none
    | c1 :: r2 =>
      if c1 = ':' then
        match (takeWs r2).2 with
        | [] => none
        | c2 :: r4 =>
          if c2 = '[' then some (key ++ c1 :: ((takeWs r2).1 ++ [c2]), r4) else none
      else none

/-- Locates the first occurrence of `<key>:` + whitespace + `[` followed
later by `]` (spec §4.1 step 3): returns `(head, body, tail)` with
`s = head ++ body ++ tail`, `head` ending in `[` and `tail` starting
with `]`. -/
def findArray (key : List Char) : List Char → Option (List Char × List Char × List Char)
  | [] => none
  | c :: cs =>
    match matchHead key (c :: cs) with
    | some (h, rest) =>
      match splitAtRB rest with
      | some (b, t) => some (h, b, t)
      | none =>
        match findArray key cs with
        | some (h', b, t) => some (c :: h', b, t)
        | none => none
    | none =>
      match findArray key cs with
      | some (h', b, t) => some (c :: h', b, t)
      | none => none

/-- Trims surrounding whitespace (spec §4.1 step 4). -/
def trimWs (s : List Char) : List Char :=
  ((s.dropWhile isWs).reverse.dropWhile isWs).reverse

/-- New array body (spec §4.1 step 4): the injected expression first, then
the existing trimmed inner text as a second element, separated by a comma
and newline; just the injected expression if the existing body is blank. -/
def newArrayBody (inj body : List Char) : List Char :=
  match trimWs body with
  | [] => inj
  | b => inj ++ ',' :: '\n' :: b

/-- Failure conditions of the patcher (spec §7). -/
inductive PatchError where
  | malformedRule
  | noMatchFound
  deriving DecidableEq

/-- Modelled from the spec (§4.1): the idempotent text patcher.  Absent
file contents are represented by `[]` (the spec treats absent and empty
identically).  Steps: malformed-rule check; import-marker idempotence
check (return contents unchanged); prepend the import line and a newline;
locate the first array literal of `arrayKeyName` in the resulting text and
insert the injected expression as its first element; `NoMatchFound` when
no array literal is located. -/
def patch (c : List Char) (r : PatchRule) : Except PatchError (List Char) :=
  if r.malformed then .error .malformedRule
  else if containsSubstr c r.importMarker then .ok c
  else
    match findArray r.arrayKeyName (r.importStatement ++ '\n' :: c) with
    | none => .error .noMatchFound
    | some (h, b, t) => .ok (h ++ newArrayBody r.injectedExpression b ++ t)

/-- The concrete tailwind patch rule used as an example throughout the
spec (§3, §8). -/
def tailwindRule : PatchRule :=
  ⟨("import tailwindcss from \x27@tailwindcss/vite\x27;").data,
   ("@tailwindcss/vite").data,
   ("plugins").data,
   ("tailwindcss()").data⟩

/-! ## The command runner `run_apps` (src/main.rs lines 69–108)

A command is a `(program, argumentList)` pair, as in
`type CmdWithArgs = (String, Vec<String>)`.  Spawning is modelled by an
oracle `ex : Nat → Option CmdResult` giving the result of the i-th
spawned command (`none` models a spawn failure, on which the Rust code's
`.expect("Failed to execute command")` panics); `env::set_current_dir` is
modelled by an oracle `ch : String → Bool`.  Observable behaviour is the
event trace plus the final working directory and the outcome. -/

/-- The observed state of a finished child process: `success` mirrors
`output.status.success()` and `code` mirrors `output.status.code()`. -/
structure CmdResult where
  success : Bool
  code : Option Int
  deriving DecidableEq

/-- A command with its arguments, as in `type CmdWithArgs`. -/
def CmdWithArgs := String × List String

instance : DecidableEq CmdWithArgs := instDecidableEqProd

/-- The distinct panic sites of the program.  Each constructor carries the
data interpolated into the corresponding human-readable panic message. -/
inductive PanicKind where
  /-- `.expect("Failed to execute command")` on a spawn failure. -/
  | spawnFailure (cmd : String)
  /-- `panic!("Command {} exited with {:?}", cmd, output.status.code())`. -/
  | exitFailure (cmd : String) (code : Option Int)
  /-- indexing `args[0]` on an empty argument vector of `mkdir`. -/
  | emptyArgs (cmd : String)
  /-- `panic!("Error [{}] while trying to set project directory: {}")`. -/
  | chdirFailure (dir : String)
  /-- `panic!("Error [{}] while trying to create directory: {}")`. -/
  | createDirFailure (path : String)
  /-- `.expect("Unable to write file")` on a file-write failure. -/
  | writeFailure (path : String)
  /-- `run_apps(apps).expect("One or more commands failed to execute")`. -/
  | expectFailure
  deriving DecidableEq

/-- How a call to `run_apps` ends: a returned `Ok(())`, a returned
`Err(e)` value (which would let the caller continue), or a panic that
aborts the whole process. -/
inductive RunReturn where
  | ok
  | err (cmd : String) (code : Option Int)
  | panicked (k : PanicKind)
  deriving DecidableEq

/-- Observable events of a run.  `exec`, `write` and `writeBin` record
the process working directory current at the time of the action. -/
inductive Event where
  | createDir (path : String)
  | chdir (path : String)
  | exec (cmd : String) (args : List String) (cwd : String)
  | write (path : String) (contents : String) (cwd : String)
  | writeBin (path : String) (contents : List Nat) (cwd : String)
  deriving DecidableEq

/-- Model of `run_apps` (src/main.rs lines 69–108): runs the commands in
order; on a spawn failure or a non-zero exit status it panics; after a
successful `mkdir` it changes the working directory to the command's
first argument (panicking on an empty argument vector or a failed
directory change); otherwise it continues, returning `Ok(())` at the end.
`n` is the index of the first command in the overall spawn order. -/
def run_apps (ex : Nat → Option CmdResult) (ch : String → Bool) :
    Nat → String → List CmdWithArgs → List Event × String × RunReturn
  | _, cwd, [] => ([], cwd, .ok)
  | n, cwd, ca :: rest =>
    match ex n with
    | none => ([.exec ca.1 ca.2 cwd], cwd, .panicked (.spawnFailure ca.1))
    | some r =>
      if r.success then
        if ca.1 = "mkdir" then
          match ca.2 with
          | [] => ([.exec ca.1 ca.2 cwd], cwd, .panicked (.emptyArgs ca.1))
          | d :: _ =>
            if ch d then
              (.exec ca.1 ca.2 cwd :: (run_apps ex ch (n + 1) d rest).1,
               (run_apps ex ch (n + 1) d rest).2)
            else ([.exec ca.1 ca.2 cwd], cwd, .panicked (.chdirFailure d))
        else
          (.exec ca.1 ca.2 cwd :: (run_apps ex ch (n + 1) cwd rest).1,
           (run_apps ex ch (n + 1) cwd rest).2)
      else ([.exec ca.1 ca.2 cwd], cwd, .panicked (.exitFailure ca.1 r.code))

/-- The commands recorded as executed in an event trace. -/
def cmdsOf (es : List Event) : List CmdWithArgs :=
  es.filterMap fun e =>
    match e with
    | .exec c a _ => some (c, a)
    | _ => none

/-- `exitsNonzeroAt ex n` says the n-th spawned command runs to completion
and exits with a failure status. -/
def exitsNonzeroAt (ex : Nat → Option CmdResult) (n : Nat) : Prop :=
  ∃ r, ex n = some r ∧ r.success = false

/-! ## The `main` pipeline (src/main.rs lines 143–569)

`main` builds three directories under the project path, changes the
process working directory to the project path, runs the `apps` command
list through `run_apps`, then writes the text template catalog and the
binary files.  File writing is modelled by an oracle `w : String → Bool`
(success of `fs::write` at a path); the contents of the `include_bytes!`
binary constants are not in the source text, so they are a parameter
`bin : String → List Nat` keyed by the Rust constant's name. -/

/-- A named text file template, as in `struct FileSetting`. -/
structure FileSetting where
  name : String
  contents : String
  deriving DecidableEq

/-- The command `git_init` from main.rs. -/
def git_init : CmdWithArgs := (("git"), [("init")])

/-- The command `npm_init` from main.rs. -/
def npm_init : CmdWithArgs := (("npm"), [("init"), ("-y")])

/-- The command `npm_install` from main.rs. -/
def npm_install : CmdWithArgs :=
  (("npm"), [("install"), ("react"), ("react-dom")])

/-- The command `npm_install_dev` from main.rs. -/
def npm_install_dev : CmdWithArgs :=
  (("npm"),
   [("install"), ("--save-dev"), ("@types/jest"), ("@types/react"),
    ("@vitejs/plugin-react"), ("eslint"), ("eslint-plugin-jest"),
    ("eslint-plugin-react"), ("eslint-plugin-react-hooks"), ("jest"),
    ("sass"), ("vite"), ("tailwindcss"), ("postcss"), ("autoprefixer")])

/-- The node -e script string `package_json_update` from main.rs, verbatim. -/
def package_json_update : String :=
  "const fs = require(\x27fs\x27);\n\nconst packageJson = \x27./package.json\x27;\nconst contents = require(packageJson);\n\ncontents.scripts = \x7b\n  \x27build\x27: \x27vite build\x27,\n  \x27dev:watch\x27: \x27vite --open\x27,\n  linter: \x27eslint .\x27,\n  test: \x27jest .\x27,\n\x7d;\ncontents.author = \x27Ricky Nelson <rickyn@zolmok.org>\x27;\ncontents.license = \x27UNLICENSED\x27;\ncontents.type = \x27module\x27;\n\nfs.writeFile(packageJson, JSON.stringify(contents, null, 2), (err) => \x7b\n  if (err) \x7b\n    console.error(err);\n  \x7d\n\x7d);"

/-- The command `update_package_json` from main.rs. -/
def update_package_json : CmdWithArgs := (("node"), [("-e"), package_json_update])

/-- The ordered command pipeline `apps` passed to `run_apps` in `main`. -/
def apps : List CmdWithArgs :=
  [git_init, npm_init, npm_install_dev, npm_install, update_package_json]

/-- The `git_ignore` FileSetting from main.rs: file `.gitignore`, contents verbatim. -/
def git_ignore : FileSetting :=
  ⟨".gitignore", "# web\nnode_modules\ndist\n\n# rust\ntarget\n"⟩

/-- The `prettier` FileSetting from main.rs: file `prettier.config.js`, contents verbatim. -/
def prettier : FileSetting :=
  ⟨"prettier.config.js", "// https://prettier.io/docs/en/options.html\n/** @type \x7bimport(\x27prettier\x27).RequiredOptions\x7d */\nmodule.exports = \x7b\n  trailingComma: \x27es5\x27,\n  bracketSameLine: true,\n  bracketSpacing: true,\n  tabWidth: 2,\n  semi: true,\n  singleQuote: true,\n  arrowParens: \x27always\x27,\n  overrides: [\n    \x7b\n      files: \x27Routes.*\x27,\n      options: \x7b\n        printWidth: 999,\n      \x7d,\n    \x7d,\n  ],\n\x7d;\n"⟩

/-- The `eslintrc` FileSetting from main.rs: file `.eslintrc.json`, contents verbatim. -/
def eslintrc : FileSetting :=
  ⟨".eslintrc.json", "\x7b\n  \"env\": \x7b\n    \"browser\": true,\n    \"es2021\": true,\n    \"node\": true\n  \x7d,\n  \"extends\": [\n    \"eslint:recommended\",\n    \"plugin:jest/recommended\",\n    \"plugin:react/recommended\",\n    \"plugin:react-hooks/recommended\"\n  ],\n  \"overrides\": [\n    \x7b \"files\": [\"*.jsx\", \"*.js\"] \x7d\n  ],\n  \"parserOptions\": \x7b\n    \"ecmaFeatures\": \x7b\n      \"jsx\": true\n    \x7d,\n    \"ecmaVersion\": \"latest\",\n    \"sourceType\": \"module\"\n  \x7d,\n  \"plugins\": [\n    \"jest\",\n    \"react\",\n    \"react-hooks\"\n  ],\n  \"rules\": \x7b\n    \"object-curly-spacing\": [\"error\", \"always\"],\n    \"quotes\": [\"error\", \"single\"],\n    \"react-hooks/rules-of-hooks\": \"error\",\n    \"react-hooks/exhaustive-deps\": \"warn\",\n    \"react/react-in-jsx-scope\": \"off\",\n    \"react/jsx-uses-react\": \"off\",\n    \"space-infix-ops\": [\"error\", \x7b \"int32Hint\": false \x7d]\n  \x7d,\n  \"settings\": \x7b\n    \"react\": \x7b\n      \"version\": \"detect\"\n    \x7d\n  \x7d\n\x7d\n"⟩

/-- The `editorconfig` FileSetting from main.rs: file `.editorconfig`, contents verbatim. -/
def editorconfig : FileSetting :=
  ⟨".editorconfig", "# EditorConfig is awesome: https://EditorConfig.org\n\n# top-most EditorConfig file\nroot = true\n\n# Unix-style newlines with a newline ending every file\n[*]\nend_of_line = lf\ninsert_final_newline = true\nindent_style = space\nindent_size = 2\n\n[*.rs]\nindent_size = 4\n\n# Set default charset\ncharset = utf-8\n"⟩

/-- The `jsconfig` FileSetting from main.rs: file `jsconfig.json`, contents verbatim. -/
def jsconfig : FileSetting :=
  ⟨"jsconfig.json", "\x7b\n  \"compilerOptions\": \x7b\n    \"allowSyntheticDefaultImports\": true,\n    \"baseUrl\": \"./src\",\n    \"checkJs\": true,\n    \"lib\": [\"dom\", \"es2017\"],\n    \"jsx\": \"react-jsx\",\n    \"moduleResolution\": \"node\",\n    \"noEmit\": true,\n    \"resolve\": \x7b\n      \"extensions\": [\".js\", \".jsx\", \".json\"],\n      \"modules\": [\"src\", \"node_modules\"]\n    \x7d,\n    \"resolveJsonModule\": true,\n    \"target\": \"esnext\",\n  \x7d,\n  \"exclude\": [\"node_modules\", \"dist\"],\n  \"include\": [\"./**/*\"]\n\x7d"⟩

/-- The `html` FileSetting from main.rs: file `index.html`, contents verbatim. -/
def html : FileSetting :=
  ⟨"index.html", "<!DOCTYPE html>\n<html>\n  <head>\n    <meta charset=\"utf-8\" />\n    <meta name=\"description\" content=\"\" />\n    <meta\n      name=\"viewport\"\n      content=\"width=device-width, initial-scale=1, shrink-to-fit=no\"\n    />\n\n    <title>Project</title>\n\n    <link rel=\"apple-touch-icon\" sizes=\"180x180\" href=\"/apple-touch-icon.png\">\n    <link rel=\"icon\" type=\"image/png\" sizes=\"32x32\" href=\"/favicon-32x32.png\">\n    <link rel=\"icon\" type=\"image/png\" sizes=\"16x16\" href=\"/favicon-16x16.png\">\n    <link rel=\"manifest\" href=\"/site.webmanifest\">\n\n    <script src=\"src/app.jsx\" type=\"module\"></script>\n  </head>\n  <body>\n    <div id=\"app\"></div>\n  </body>\n</html>\n"⟩

/-- The `vite_config` FileSetting from main.rs: file `vite.config.js`, contents verbatim. -/
def vite_config : FileSetting :=
  ⟨"vite.config.js", "import react from \x27@vitejs/plugin-react\x27;\nimport \x7b resolve \x7d from \x27path\x27;\nimport \x7b defineConfig \x7d from \x27vite\x27;\n\n// https://vitejs.dev/config/\nexport default defineConfig(\x7b\n  plugins: [react()],\n  resolve: \x7b\n    alias: \x7b\n      api: resolve(__dirname, \x27./src/api\x27),\n      components: resolve(__dirname, \x27./src/components\x27),\n      hooks: resolve(__dirname, \x27./src/hooks\x27),\n      layouts: resolve(__dirname, \x27./src/layouts\x27),\n      pages: resolve(__dirname, \x27./src/pages\x27),\n      utils: resolve(__dirname, \x27./src/utils\x27),\n    \x7d,\n  \x7d,\n\x7d);\n"⟩

/-- The `project_jsx` FileSetting from main.rs: file `src/project.jsx`, contents verbatim. -/
def project_jsx : FileSetting :=
  ⟨"src/project.jsx", "export default function Project() \x7b\n  return (\n    <main>\n      <header className=\"relative isolate\">\n        <div className=\"mx-auto max-w-7xl px-4 py-10 sm:px-6 lg:px-8\">\n          <div className=\"mx-auto flex max-w-2xl items-center justify-between gap-x-8 lg:mx-0 lg:max-w-none\">\n            <div className=\"flex items-center gap-x-6\">\n              <img\n                src=\"/images/red-box-48.png\"\n                alt=\"Project\"\n                className=\"h-16 w-16 flex-none\"\n              />\n              <h1>\n                <div className=\"mt-1 text-base font-semibold leading-6 text-gray-900\">\n                  Project\n                </div>\n              </h1>\n            </div>\n          </div>\n        </div>\n      </header>\n\n      <div className=\"mx-auto max-w-7xl px-4 sm:px-6 lg:px-8\">\n        <div className=\"mx-auto grid max-w-2xl grid-cols-1 grid-rows-1 items-start gap-x-8 gap-y-8 lg:mx-0 lg:max-w-none lg:grid-cols-3\">\n          Test project ready to go!\n        </div>\n      </div>\n    </main>\n  );\n\x7d\n"⟩

/-- The `app_jsx` FileSetting from main.rs: file `src/app.jsx`, contents verbatim. -/
def app_jsx : FileSetting :=
  ⟨"src/app.jsx", "import \x7b createRoot \x7d from \x27react-dom/client\x27;\nimport Project from \x27./project\x27;\n\nimport \x27./index.css\x27;\n\nconst root = createRoot(document.getElementById(\x27app\x27));\n\nroot.render(<Project />);\n"⟩

/-- The `postcss_config` FileSetting from main.rs: file `postcss.config.js`, contents verbatim. -/
def postcss_config : FileSetting :=
  ⟨"postcss.config.js", "export default \x7b\n  plugins: \x7b\n    tailwindcss: \x7b\x7d,\n    autoprefixer: \x7b\x7d,\n  \x7d,\n\x7d;\n"⟩

/-- The `index_css` FileSetting from main.rs: file `src/index.css`, contents verbatim. -/
def index_css : FileSetting :=
  ⟨"src/index.css", "@tailwind base;\n@tailwind components;\n@tailwind utilities;\n"⟩

/-- The `tailwind_config` FileSetting from main.rs: file `tailwind.config.js`, contents verbatim. -/
def tailwind_config : FileSetting :=
  ⟨"tailwind.config.js", "/** @type \x7bimport(\x27tailwindcss\x27).Config\x7d */\nmodule.exports = \x7b\n  content: [\x27./index.html\x27, \x27./src/**/*.\x7bjs,ts,jsx,tsx\x7d\x27],\n  theme: \x7b\n    extend: \x7b\x7d,\n  \x7d,\n  plugins: [],\n\x7d;\n"⟩

/-- The ordered static text-template catalog written out by `main`
(lines 493–512), in write order. -/
def textCatalog : List FileSetting :=
  [git_ignore, prettier, eslintrc, editorconfig, jsconfig, html,
   vite_config, project_jsx, app_jsx, postcss_config, index_css,
   tailwind_config]

/-- The ordered binary catalog written out by `main` (lines 550–567):
write paths paired with the `include_bytes!` contents, which are supplied
by the parameter `bin` keyed by the Rust constant name. -/
def binCatalog (bin : String → List Nat) : List (String × List Nat) :=
  [(("./public/android-chrome-192x192.png"), bin ("ANDROID_CHROME_192")),
   (("./public/android-chrome-512x512.png"), bin ("ANDROID_CHROME_512")),
   (("./public/apple-touch-icon.png"), bin ("APPLE_TOUCH")),
   (("./public/favicon-16x16.png"), bin ("FAVICON_16")),
   (("./public/favicon-32x32.png"), bin ("FAVICON_32")),
   (("./public/favicon.ico"), bin ("FAVICON")),
   (("./public/site.webmanifest"), bin ("WEBMANIFEST")),
   (("./public/images/red-box-48.png"), bin ("RED_BOX_48"))]

/-- The three directories `main` creates before anything else runs
(lines 148–156). -/
def dirList (p : String) : List String :=
  [p ++ ("/public"), p ++ ("/public/images"), p ++ ("/src")]

/-- Directory-creation phase: `create_directory` on each path in order;
a failure panics immediately (lines 130–140). -/
def dirPhase (cd : String → Bool) : List String → List Event × Option PanicKind
  | [] => ([], none)
  | p :: rest =>
    if cd p then
      match dirPhase cd rest with
      | (es, r) => (.createDir p :: es, r)
    else ([.createDir p], some (.createDirFailure p))

/-- Text-file write phase (lines 493–512): `fs::write(name, contents)`
for each catalog entry in order; a failure panics immediately. -/
def writePhase (w : String → Bool) (cwd : String) :
    List FileSetting → List Event × Option PanicKind
  | [] => ([], none)
  | f :: rest =>
    if w f.name then
      match writePhase w cwd rest with
      | (es, r) => (.write f.name f.contents cwd :: es, r)
    else ([.write f.name f.contents cwd], some (.writeFailure f.name))

/-- Binary-file write phase (lines 550–567). -/
def binPhase (w : String → Bool) (cwd : String) :
    List (String × List Nat) → List Event × Option PanicKind
  | [] => ([], none)
  | (n, bytes) :: rest =>
    if w n then
      match binPhase w cwd rest with
      | (es, r) => (.writeBin n bytes cwd :: es, r)
    else ([.writeBin n bytes cwd], some (.writeFailure n))

/-- How the whole process ends: normal completion or a panic. -/
inductive MainOutcome where
  | ok
  | panicked (k : PanicKind)
  deriving DecidableEq

/-- The observable result of a run of the tool. -/
structure MainResult where
  trace : List Event
  outcome : MainOutcome
  deriving DecidableEq

/-- Model of `main` (lines 143–569): create the three directories, change
the working directory to the project path, run the `apps` pipeline, write
the text catalog, write the binary catalog.  Any failure panics at once
and ends the trace. -/
def mainRun (p : String) (cd ch : String → Bool) (ex : Nat → Option CmdResult)
    (w : String → Bool) (bin : String → List Nat) : MainResult :=
  match dirPhase cd (dirList p) with
  | (des, some k) => ⟨des, .panicked k⟩
  | (des, none) =>
    if ch p then
      match run_apps ex ch 0 p apps with
      | (ces, _, .panicked k) => ⟨des ++ Event.chdir p :: ces, .panicked k⟩
      | (ces, _, .err _ _) => ⟨des ++ Event.chdir p :: ces, .panicked .expectFailure⟩
      | (ces, cwd1, .ok) =>
        match writePhase w cwd1 textCatalog with
        | (wes, some k) => ⟨des ++ Event.chdir p :: (ces ++ wes), .panicked k⟩
        | (wes, none) =>
          match binPhase w cwd1 (binCatalog bin) with
          | (bes, some k) =>
            ⟨des ++ Event.chdir p :: (ces ++ wes ++ bes), .panicked k⟩
          | (bes, none) =>
            ⟨des ++ Event.chdir p :: (ces ++ wes ++ bes), .ok⟩
    else ⟨des, .panicked (.chdirFailure p)⟩

/-- A Rust panic that unwinds out of `main` terminates the process with
exit code 101 (the Rust runtime's documented abnormal-exit code); the
source contains no `process::exit` call, so a panic is the only abnormal
exit. -/
def panicExitCode : Nat := 101

/-- Process exit code of an outcome. -/
def exitCode : MainOutcome → Nat
  | .ok => 0
  | .panicked _ => panicExitCode

/-- Whether an event is the working-directory change. -/
def Event.isChdir : Event → Bool
  | .chdir _ => true
  | _ => false

/-- Whether an event is a command execution or a file write. -/
def Event.isAction : Event → Bool
  | .exec _ _ _ => true
  | .write _ _ _ => true
  | .writeBin _ _ _ => true
  | _ => false

/-- Whether an event's recorded working directory (if any) is `p`. -/
def Event.cwdOk (p : String) : Event → Bool
  | .exec _ _ cwd => cwd == p
  | .write _ _ cwd => cwd == p
  | .writeBin _ _ cwd => cwd == p
  | _ => true

/-- The `(name, contents)` pairs of the text catalog. -/
def textPairs : List (String × String) :=
  textCatalog.map fun f => (f.name, f.contents)

/-- A write event is verbatim when its payload is a catalog entry. -/
def Event.verbatimText : Event → Bool
  | .write n c _ => decide ((n, c) ∈ textPairs)
  | _ => true


/-! ### Structural lemmas about the patcher -/

theorem splitAtRB_eq : ∀ s b t : List Char, splitAtRB s = some (b, t) → s = b ++ t := by
  intro s
  induction s with
  | nil => intro b t h; simp [splitAtRB] at h
  | cons c cs ih =>
    intro b t h
    by_cases hc : c = ']'
    · rw [splitAtRB, if_pos hc] at h
      obtain ⟨rfl, rfl⟩ := by simpa using h
      simp
    · rw [splitAtRB, if_neg hc] at h
      cases hsp : splitAtRB cs with
      | none => rw [hsp] at h; simp at h
      | some p =>
        obtain ⟨b', t'⟩ := p
        rw [hsp] at h
        obtain ⟨rfl, rfl⟩ := by simpa using h
        have := ih b' t' hsp
        rw [this]
        simp

theorem dropStart_eq : ∀ p s r : List Char, dropStart p s = some r → s = p ++ r := by
  intro p
  induction p with
  | nil => intro s r h; simpa [dropStart] using h
  | cons x xs ih =>
    intro s r h
    cases s with
    | nil => simp [dropStart] at h
    | cons c cs =>
      rw [dropStart] at h
      by_cases hc : c = x
      · rw [if_pos hc] at h
        subst hc
        simpa using ih cs r h
      · rw [if_neg hc] at h
        simp at h

theorem takeWs_eq : ∀ s : List Char, s = (takeWs s).1 ++ (takeWs s).2 := by
  intro s
  induction s with
  | nil => simp [takeWs]
  | cons c cs ih =>
    rw [takeWs]
    by_cases hc : isWs c = true
    · rw [if_pos hc]
      simpa using ih
    · rw [if_neg hc]
      simp

theorem matchHead_eq (key : List Char) (s h r : List Char)
    (hm : matchHead key s = some (h, r)) : s = h ++ r ∧ '[' ∈ h := by
  rw [matchHead] at hm
  cases hds : dropStart key s with
  | none => rw [hds] at hm; simp at hm
  | some r1 =>
    rw [hds] at hm
    dsimp only at hm
    cases r1 with
    | nil => simp at hm
    | cons c1 r2 =>
      dsimp only at hm
      by_cases hc1 : c1 = ':'
      · rw [if_pos hc1] at hm
        cases hr3 : (takeWs r2).2 with
        | nil => rw [hr3] at hm; simp at hm
        | cons c2 r4 =>
          rw [hr3] at hm
          dsimp only at hm
          by_cases hc2 : c2 = '['
          · rw [if_pos hc2] at hm
            obtain ⟨rfl, rfl⟩ := by simpa using hm
            have h1 := dropStart_eq key s (c1 :: r2) hds
            have h2 := takeWs_eq r2
            rw [hr3] at h2
            subst hc1 hc2
            constructor
            · rw [h1]
              conv_lhs => rw [h2]
              simp
            · simp
          · rw [if_neg hc2] at hm
            simp at hm
      · rw [if_neg hc1] at hm
        simp at hm

theorem findArray_eq (key : List Char) :
    ∀ s h b t : List Char, findArray key s = some (h, b, t) →
      s = h ++ b ++ t ∧ '[' ∈ h := by
  intro s
  induction s with
  | nil => intro h b t hf; simp [findArray] at hf
  | cons c cs ih =>
    intro h b t hf
    rw [findArray] at hf
    cases hmh : matchHead key (c :: cs) with
    | some pr =>
      obtain ⟨h', rest⟩ := pr
      rw [hmh] at hf
      dsimp only at hf
      cases hsp : splitAtRB rest with
      | some pbt =>
        obtain ⟨b', t'⟩ := pbt
        rw [hsp] at hf
        dsimp only at hf
        obtain ⟨rfl, rfl, rfl⟩ := by simpa using hf
        obtain ⟨hs, hin⟩ := matchHead_eq key (c :: cs) h' rest hmh
        have hbt := splitAtRB_eq rest b' t' hsp
        refine ⟨?_, hin⟩
        rw [hs, hbt, List.append_assoc]
      | none =>
        rw [hsp] at hf
        dsimp only at hf
        cases hfa : findArray key cs with
        | some tr =>
          obtain ⟨h1, b1, t1⟩ := tr
          rw [hfa] at hf
          dsimp only at hf
          obtain ⟨rfl, rfl, rfl⟩ := by simpa using hf
          obtain ⟨hs, hin⟩ := ih h1 b1 t1 hfa
          exact ⟨by simp [hs], List.mem_cons_of_mem _ hin⟩
        | none => rw [hfa] at hf; simp at hf
    | none =>
      rw [hmh] at hf
      dsimp only at hf
      cases hfa : findArray key cs with
      | some tr =>
        obtain ⟨h1, b1, t1⟩ := tr
        rw [hfa] at hf
        dsimp only at hf
        obtain ⟨rfl, rfl, rfl⟩ := by simpa using hf
        obtain ⟨hs, hin⟩ := ih h1 b1 t1 hfa
        exact ⟨by simp [hs], List.mem_cons_of_mem _ hin⟩
      | none => rw [hfa] at hf; simp at hf

/-- Any successful output of `patch` contains the rule's import marker:
either the contents already did, or the import line (which carries the
marker) was prepended and lies outside the rewritten array span. -/
theorem patch_ok_contains (r : PatchRule) (c o : List Char) (hv : r.valid)
    (hp : patch c r = .ok o) : containsSubstr o r.importMarker = true := by
  obtain ⟨hm, hmk, hbr⟩ := hv
  simp only [patch, hm, Bool.false_eq_true, if_false] at hp
  by_cases hc : containsSubstr c r.importMarker = true
  · rw [if_pos hc] at hp
    obtain rfl := by simpa using hp
    exact hc
  · rw [if_neg hc] at hp
    split at hp
    next => simp at hp
    next h b t hfa =>
      obtain rfl := by simpa using hp
      obtain ⟨hs, hin⟩ := findArray_eq r.arrayKeyName _ h b t hfa
      have himp : r.importStatement <+: r.importStatement ++ '\n' :: c :=
        List.prefix_append _ _
      have hh : h <+: r.importStatement ++ '\n' :: c :=
        ⟨b ++ t, by rw [hs, List.append_assoc]⟩
      rcases List.prefix_or_prefix_of_prefix hh himp with hcase | hcase
      · exact absurd (hcase.subset hin) hbr
      · have h1 : r.importMarker <:+: r.importStatement :=
          (containsSubstr_iff _ _).mp hmk
        have h2 : r.importMarker <:+: h := h1.trans hcase.isInfix
        have h3 : h <+: h ++ (newArrayBody r.injectedExpression b ++ t) :=
          List.prefix_append _ _
        exact (containsSubstr_iff _ _).mpr (h2.trans h3.isInfix)

/-! ### Lemmas about the command runner -/

theorem cmdsOf_nil : cmdsOf [] = [] := rfl

theorem cmdsOf_cons_exec (c : String) (a : List String) (cw : String) (es : List Event) :
    cmdsOf (.exec c a cw :: es) = (c, a) :: cmdsOf es := rfl

/-- The executed-command trace of `run_apps` is an initial segment of the
input command list: commands are executed in order and at most once. -/
theorem run_apps_take (ex : Nat → Option CmdResult) (ch : String → Bool) :
    ∀ (cmds : List CmdWithArgs) (n : Nat) (cwd : String),
      ∃ k, cmdsOf (run_apps ex ch n cwd cmds).1 = cmds.take k := by
  intro cmds
  induction cmds with
  | nil => intro n cwd; exact ⟨0, rfl⟩
  | cons ca rest ih =>
    intro n cwd
    obtain ⟨c, a⟩ := ca
    rw [run_apps]
    dsimp only
    cases hex : ex n with
    | none => exact ⟨1, by simp [cmdsOf_cons_exec, cmdsOf_nil]⟩
    | some r =>
      dsimp only
      by_cases hs : r.success = true
      · rw [if_pos hs]
        by_cases hcm : c = "mkdir"
        · rw [if_pos hcm]
          cases a with
          | nil => exact ⟨1, by simp [cmdsOf_cons_exec, cmdsOf_nil]⟩
          | cons d args =>
            dsimp only
            by_cases hch : ch d = true
            · rw [if_pos hch]
              obtain ⟨k, hk⟩ := ih (n + 1) d
              exact ⟨k + 1, by simp [cmdsOf_cons_exec, hk]⟩
            · rw [if_neg hch]
              exact ⟨1, by simp [cmdsOf_cons_exec, cmdsOf_nil]⟩
        · rw [if_neg hcm]
          obtain ⟨k, hk⟩ := ih (n + 1) cwd
          exact ⟨k + 1, by simp [cmdsOf_cons_exec, hk]⟩
      · rw [if_neg hs]
        exact ⟨1, by simp [cmdsOf_cons_exec, cmdsOf_nil]⟩

/-- `run_apps` never returns an `Err` value: it either returns `Ok(())`
or panics. -/
theorem run_apps_no_err (ex : Nat → Option CmdResult) (ch : String → Bool) :
    ∀ (cmds : List CmdWithArgs) (n : Nat) (cwd : String) (c : String) (k : Option Int),
      (run_apps ex ch n cwd cmds).2.2 ≠ .err c k := by
  intro cmds
  induction cmds with
  | nil => intro n cwd c k; simp [run_apps]
  | cons ca rest ih =>
    intro n cwd c k
    obtain ⟨c0, a⟩ := ca
    rw [run_apps]
    dsimp only
    cases hex : ex n with
    | none => simp
    | some r =>
      dsimp only
      by_cases hs : r.success = true
      · rw [if_pos hs]
        by_cases hcm : c0 = "mkdir"
        · rw [if_pos hcm]
          cases a with
          | nil => simp
          | cons d args =>
            dsimp only
            by_cases hch : ch d = true
            · rw [if_pos hch]
              simpa using ih (n + 1) d c k
            · rw [if_neg hch]
              simp
        · rw [if_neg hcm]
          simpa using ih (n + 1) cwd c k
      · rw [if_neg hs]
        simp

/-- When no command in the list is named `mkdir`, `run_apps` leaves the
working directory unchanged and its events are exactly the executions of
an initial segment of the list, all recorded at the starting working
directory. -/
theorem run_apps_no_mkdir (ex : Nat → Option CmdResult) (ch : String → Bool) :
    ∀ (cmds : List CmdWithArgs) (n : Nat) (cwd : String),
      (∀ q ∈ cmds, q.1 ≠ "mkdir") →
      (run_apps ex ch n cwd cmds).2.1 = cwd ∧
      ∃ k, (run_apps ex ch n cwd cmds).1 =
        (cmds.take k).map fun q => Event.exec q.1 q.2 cwd := by
  intro cmds
  induction cmds with
  | nil => intro n cwd _; exact ⟨rfl, 0, rfl⟩
  | cons ca rest ih =>
    intro n cwd hnm
    obtain ⟨c, a⟩ := ca
    have hc : c ≠ "mkdir" := hnm (c, a) (List.mem_cons_self _ _)
    have hrest : ∀ q ∈ rest, q.1 ≠ "mkdir" := fun q hq => hnm q (List.mem_cons_of_mem _ hq)
    rw [run_apps]
    dsimp only
    cases hex : ex n with
    | none => exact ⟨rfl, 1, by simp⟩
    | some r =>
      dsimp only
      by_cases hs : r.success = true
      · rw [if_pos hs, if_neg hc]
        obtain ⟨hcw, k, hk⟩ := ih (n + 1) cwd hrest
        exact ⟨by simpa using hcw, k + 1, by simp [hk]⟩
      · rw [if_neg hs]
        exact ⟨rfl, 1, by simp⟩

/-! ### Lemmas about the main pipeline -/

theorem dirPhase_mem (cd : String → Bool) :
    ∀ (l : List String) (e : Event), e ∈ (dirPhase cd l).1 → ∃ q ∈ l, e = .createDir q := by
  intro l
  induction l with
  | nil => intro e he; simp [dirPhase] at he
  | cons q rest ih =>
    intro e he
    rw [dirPhase] at he
    by_cases hq : cd q = true
    · rw [if_pos hq] at he
      dsimp only at he
      rcases List.mem_cons.mp he with rfl | he2
      · exact ⟨q, List.mem_cons_self _ _, rfl⟩
      · obtain ⟨q2, hq2, rfl⟩ := ih e he2
        exact ⟨q2, List.mem_cons_of_mem _ hq2, rfl⟩
    · rw [if_neg hq] at he
      rcases List.mem_cons.mp he with rfl | he2
      · exact ⟨q, List.mem_cons_self _ _, rfl⟩
      · simp at he2

theorem writePhase_mem (w : String → Bool) (cwd : String) :
    ∀ (l : List FileSetting) (e : Event), e ∈ (writePhase w cwd l).1 →
      ∃ f ∈ l, e = .write f.name f.contents cwd := by
  intro l
  induction l with
  | nil => intro e he; simp [writePhase] at he
  | cons f rest ih =>
    intro e he
    rw [writePhase] at he
    by_cases hf : w f.name = true
    · rw [if_pos hf] at he
      dsimp only at he
      rcases List.mem_cons.mp he with rfl | he2
      · exact ⟨f, List.mem_cons_self _ _, rfl⟩
      · obtain ⟨f2, hf2, rfl⟩ := ih e he2
        exact ⟨f2, List.mem_cons_of_mem _ hf2, rfl⟩
    · rw [if_neg hf] at he
      rcases List.mem_cons.mp he with rfl | he2
      · exact ⟨f, List.mem_cons_self _ _, rfl⟩
      · simp at he2

theorem binPhase_mem (w : String → Bool) (cwd : String) :
    ∀ (l : List (String × List Nat)) (e : Event), e ∈ (binPhase w cwd l).1 →
      ∃ nb ∈ l, e = .writeBin nb.1 nb.2 cwd := by
  intro l
  induction l with
  | nil => intro e he; simp [binPhase] at he
  | cons nb rest ih =>
    intro e he
    obtain ⟨nm, bytes⟩ := nb
    rw [binPhase] at he
    by_cases hn : w nm = true
    · rw [if_pos hn] at he
      dsimp only at he
      rcases List.mem_cons.mp he with rfl | he2
      · exact ⟨(nm, bytes), List.mem_cons_self _ _, rfl⟩
      · obtain ⟨nb2, hnb2, rfl⟩ := ih e he2
        exact ⟨nb2, List.mem_cons_of_mem _ hnb2, rfl⟩
    · rw [if_neg hn] at he
      rcases List.mem_cons.mp he with rfl | he2
      · exact ⟨(nm, bytes), List.mem_cons_self _ _, rfl⟩
      · simp at he2

theorem writePhase_complete (w : String → Bool) (cwd : String) :
    ∀ (l : List FileSetting), (writePhase w cwd l).2 = none →
      (writePhase w cwd l).1 = l.map fun f => Event.write f.name f.contents cwd := by
  intro l
  induction l with
  | nil => intro _; rfl
  | cons f rest ih =>
    intro hn
    rw [writePhase] at hn ⊢
    by_cases hf : w f.name = true
    · rw [if_pos hf] at hn ⊢
      dsimp only at hn ⊢
      rw [ih hn]
      simp
    · rw [if_neg hf] at hn
      simp at hn

theorem binPhase_complete (w : String → Bool) (cwd : String) :
    ∀ (l : List (String × List Nat)), (binPhase w cwd l).2 = none →
      (binPhase w cwd l).1 = l.map fun nb => Event.writeBin nb.1 nb.2 cwd := by
  intro l
  induction l with
  | nil => intro _; rfl
  | cons nb rest ih =>
    intro hn
    obtain ⟨nm, bytes⟩ := nb
    rw [binPhase] at hn ⊢
    by_cases hw : w nm = true
    · rw [if_pos hw] at hn ⊢
      dsimp only at hn ⊢
      rw [ih hn]
      simp
    · rw [if_neg hw] at hn
      simp at hn

/-- No command in the `apps` pipeline is named `mkdir`: the caller of the
runner performs no `mkdir` special-casing at all in this variant. -/
theorem apps_no_mkdir : ∀ q ∈ apps, q.1 ≠ "mkdir" := by decide

/-- Every event of a run of `main` is a directory creation, the single
change of directory to the project path, a command execution recorded in
the project directory, a verbatim text-catalog write recorded in the
project directory, or a verbatim binary-catalog write recorded in the
project directory. -/
theorem mainRun_event_mem (p : String) (cd ch : String → Bool)
    (ex : Nat → Option CmdResult) (w : String → Bool) (bin : String → List Nat)
    (e : Event) (he : e ∈ (mainRun p cd ch ex w bin).trace) :
    (∃ q, e = .createDir q) ∨ e = .chdir p ∨
    (∃ c a, e = .exec c a p) ∨
    (∃ f ∈ textCatalog, e = .write f.name f.contents p) ∨
    (∃ nb ∈ binCatalog bin, e = .writeBin nb.1 nb.2 p) := by
  rcases hdp : dirPhase cd (dirList p) with ⟨des, dr⟩
  have hdes : ∀ e2 ∈ des, ∃ q, e2 = Event.createDir q := by
    intro e2 he2
    obtain ⟨q, _, rfl⟩ := dirPhase_mem cd (dirList p) e2 (by rw [hdp]; exact he2)
    exact ⟨q, rfl⟩
  rcases hra : run_apps ex ch 0 p apps with ⟨ces, cwd1, ro⟩
  have hmk := run_apps_no_mkdir ex ch apps 0 p apps_no_mkdir
  rw [hra] at hmk
  dsimp only at hmk
  obtain ⟨hcwd1, k, hces⟩ := hmk
  have hcesmem : ∀ e2 ∈ ces, ∃ c a, e2 = Event.exec c a p := by
    intro e2 he2
    rw [hces] at he2
    obtain ⟨q, _, rfl⟩ := List.mem_map.mp he2
    exact ⟨q.1, q.2, rfl⟩
  cases dr with
  | some k2 =>
    simp only [mainRun, hdp] at he
    obtain ⟨q, rfl⟩ := hdes e he
    exact Or.inl ⟨q, rfl⟩
  | none =>
    by_cases hch : ch p = true
    · rcases hwp : writePhase w (cwd1) textCatalog with ⟨wes, wr⟩
      have hwes : ∀ e2 ∈ wes, ∃ f ∈ textCatalog, e2 = Event.write f.name f.contents p := by
        intro e2 he2
        obtain ⟨f, hf, rfl⟩ := writePhase_mem w cwd1 textCatalog e2 (by rw [hwp]; exact he2)
        rw [hcwd1]
        exact ⟨f, hf, rfl⟩
      rcases hbp : binPhase w (cwd1) (binCatalog bin) with ⟨bes, br⟩
      have hbes : ∀ e2 ∈ bes, ∃ nb ∈ binCatalog bin, e2 = Event.writeBin nb.1 nb.2 p := by
        intro e2 he2
        obtain ⟨nb, hnb, rfl⟩ := binPhase_mem w cwd1 (binCatalog bin) e2 (by rw [hbp]; exact he2)
        rw [hcwd1]
        exact ⟨nb, hnb, rfl⟩
      cases ro with
      | panicked k3 =>
        simp only [mainRun, hdp, if_pos hch, hra] at he
        rcases List.mem_append.mp he with h1 | h2
        · obtain ⟨q, rfl⟩ := hdes e h1
          exact Or.inl ⟨q, rfl⟩
        · rcases List.mem_cons.mp h2 with rfl | h3
          · exact Or.inr (Or.inl rfl)
          · obtain ⟨c, a, rfl⟩ := hcesmem e h3
            exact Or.inr (Or.inr (Or.inl ⟨c, a, rfl⟩))
      | err c0 k0 =>
        simp only [mainRun, hdp, if_pos hch, hra] at he
        rcases List.mem_append.mp he with h1 | h2
        · obtain ⟨q, rfl⟩ := hdes e h1
          exact Or.inl ⟨q, rfl⟩
        · rcases List.mem_cons.mp h2 with rfl | h3
          · exact Or.inr (Or.inl rfl)
          · obtain ⟨c, a, rfl⟩ := hcesmem e h3
            exact Or.inr (Or.inr (Or.inl ⟨c, a, rfl⟩))
      | ok =>
        cases wr with
        | some k4 =>
          simp only [mainRun, hdp, if_pos hch, hra, hwp] at he
          rcases List.mem_append.mp he with h1 | h2
          · obtain ⟨q, rfl⟩ := hdes e h1
            exact Or.inl ⟨q, rfl⟩
          · rcases List.mem_cons.mp h2 with rfl | h3
            · exact Or.inr (Or.inl rfl)
            · rcases List.mem_append.mp h3 with h4 | h5
              · obtain ⟨c, a, rfl⟩ := hcesmem e h4
                exact Or.inr (Or.inr (Or.inl ⟨c, a, rfl⟩))
              · obtain ⟨f, hf, rfl⟩ := hwes e h5
                exact Or.inr (Or.inr (Or.inr (Or.inl ⟨f, hf, rfl⟩)))
        | none =>
          cases br with
          | some k5 =>
            simp only [mainRun, hdp, if_pos hch, hra, hwp, hbp] at he
            rcases List.mem_append.mp he with h1 | h2
            · obtain ⟨q, rfl⟩ := hdes e h1
              exact Or.inl ⟨q, rfl⟩
            · rcases List.mem_cons.mp h2 with rfl | h3
              · exact Or.inr (Or.inl rfl)
              · rcases List.mem_append.mp h3 with h4 | h5
                · rcases List.mem_append.mp h4 with h6 | h7
                  · obtain ⟨c, a, rfl⟩ := hcesmem e h6
                    exact Or.inr (Or.inr (Or.inl ⟨c, a, rfl⟩))
                  · obtain ⟨f, hf, rfl⟩ := hwes e h7
                    exact Or.inr (Or.inr (Or.inr (Or.inl ⟨f, hf, rfl⟩)))
                · obtain ⟨nb, hnb, rfl⟩ := hbes e h5
                  exact Or.inr (Or.inr (Or.inr (Or.inr ⟨nb, hnb, rfl⟩)))
          | none =>
            simp only [mainRun, hdp, if_pos hch, hra, hwp, hbp] at he
            rcases List.mem_append.mp he with h1 | h2
            · obtain ⟨q, rfl⟩ := hdes e h1
              exact Or.inl ⟨q, rfl⟩
            · rcases List.mem_cons.mp h2 with rfl | h3
              · exact Or.inr (Or.inl rfl)
              · rcases List.mem_append.mp h3 with h4 | h5
                · rcases List.mem_append.mp h4 with h6 | h7
                  · obtain ⟨c, a, rfl⟩ := hcesmem e h6
                    exact Or.inr (Or.inr (Or.inl ⟨c, a, rfl⟩))
                  · obtain ⟨f, hf, rfl⟩ := hwes e h7
                    exact Or.inr (Or.inr (Or.inr (Or.inl ⟨f, hf, rfl⟩)))
                · obtain ⟨nb, hnb, rfl⟩ := hbes e h5
                  exact Or.inr (Or.inr (Or.inr (Or.inr ⟨nb, hnb, rfl⟩)))
    · simp only [mainRun, hdp, if_neg hch] at he
      obtain ⟨q, rfl⟩ := hdes e he
      exact Or.inl ⟨q, rfl⟩

/-- On a successful run the trace is: directory creations, the change of
directory to the project path, the executed commands, then the full text
catalog and the full binary catalog written verbatim in the project
directory. -/
theorem mainRun_ok_trace (p : String) (cd ch : String → Bool)
    (ex : Nat → Option CmdResult) (w : String → Bool) (bin : String → List Nat)
    (ho : (mainRun p cd ch ex w bin).outcome = .ok) :
    ∃ des ces,
      (mainRun p cd ch ex w bin).trace =
        des ++ Event.chdir p :: (ces ++
          (textCatalog.map fun f => Event.write f.name f.contents p) ++
          ((binCatalog bin).map fun nb => Event.writeBin nb.1 nb.2 p)) := by
  rcases hdp : dirPhase cd (dirList p) with ⟨des, dr⟩
  rcases hra : run_apps ex ch 0 p apps with ⟨ces, cwd1, ro⟩
  have hmk := run_apps_no_mkdir ex ch apps 0 p apps_no_mkdir
  rw [hra] at hmk
  dsimp only at hmk
  obtain ⟨hcwd1, _, _⟩ := hmk
  cases dr with
  | some k2 => simp [mainRun, hdp] at ho
  | none =>
    by_cases hch : ch p = true
    · rcases hwp : writePhase w (cwd1) textCatalog with ⟨wes, wr⟩
      rcases hbp : binPhase w (cwd1) (binCatalog bin) with ⟨bes, br⟩
      cases ro with
      | panicked k3 => simp [mainRun, hdp, if_pos hch, hra] at ho
      | err c0 k0 => simp [mainRun, hdp, if_pos hch, hra] at ho
      | ok =>
        cases wr with
        | some k4 => simp [mainRun, hdp, if_pos hch, hra, hwp] at ho
        | none =>
          cases br with
          | some k5 => simp [mainRun, hdp, if_pos hch, hra, hwp, hbp] at ho
          | none =>
            have hwes := writePhase_complete w cwd1 textCatalog (by rw [hwp])
            have hbes := binPhase_complete w cwd1 (binCatalog bin) (by rw [hbp])
            rw [hwp] at hwes
            rw [hbp] at hbes
            dsimp only at hwes hbes
            rw [hcwd1] at hwes hbes
            refine ⟨des, ces, ?_⟩
            simp only [mainRun, hdp, if_pos hch, hra, hwp, hbp]
            rw [hwes, hbes]
    · simp [mainRun, hdp, if_neg hch] at ho

/-- `takeWhile` of a list whose prefix satisfies the predicate and whose
next element refutes it stops exactly at that element. -/
theorem takeWhile_stop {α : Type} (p : α → Bool) :
    ∀ (l1 : List α) (x : α) (l2 : List α),
      (∀ y ∈ l1, p y = true) → p x = false →
      (l1 ++ x :: l2).takeWhile p = l1 := by
  intro l1
  induction l1 with
  | nil => intro x l2 _ hx; simp [List.takeWhile_cons, hx]
  | cons a l ih =>
    intro x l2 hall hx
    have ha := hall a (List.mem_cons_self _ _)
    simp only [List.cons_append, List.takeWhile_cons, ha, if_true]
    rw [ih x l2 (fun y hy => hall y (List.mem_cons_of_mem _ hy)) hx]

/-- The trace of a run either consists only of directory creations (the
run died before the working-directory change) or is directory creations
followed by the change of directory to the project path and the rest. -/
theorem mainRun_trace_shape (p : String) (cd ch : String → Bool)
    (ex : Nat → Option CmdResult) (w : String → Bool) (bin : String → List Nat) :
    (∃ des, (mainRun p cd ch ex w bin).trace = des ∧
      ∀ e ∈ des, ∃ q, e = Event.createDir q) ∨
    (∃ des rest, (mainRun p cd ch ex w bin).trace = des ++ Event.chdir p :: rest ∧
      ∀ e ∈ des, ∃ q, e = Event.createDir q) := by
  rcases hdp : dirPhase cd (dirList p) with ⟨des, dr⟩
  have hdes : ∀ e2 ∈ des, ∃ q, e2 = Event.createDir q := by
    intro e2 he2
    obtain ⟨q, _, rfl⟩ := dirPhase_mem cd (dirList p) e2 (by rw [hdp]; exact he2)
    exact ⟨q, rfl⟩
  cases dr with
  | some k2 =>
    refine Or.inl ⟨des, ?_, hdes⟩
    simp [mainRun, hdp]
  | none =>
    by_cases hch : ch p = true
    · rcases hra : run_apps ex ch 0 p apps with ⟨ces, cwd1, ro⟩
      rcases hwp : writePhase w (cwd1) textCatalog with ⟨wes, wr⟩
      rcases hbp : binPhase w (cwd1) (binCatalog bin) with ⟨bes, br⟩
      cases ro with
      | panicked k3 =>
        refine Or.inr ⟨des, ces, ?_, hdes⟩
        simp [mainRun, hdp, if_pos hch, hra]
      | err c0 k0 =>
        refine Or.inr ⟨des, ces, ?_, hdes⟩
        simp [mainRun, hdp, if_pos hch, hra]
      | ok =>
        cases wr with
        | some k4 =>
          refine Or.inr ⟨des, ces ++ wes, ?_, hdes⟩
          simp [mainRun, hdp, if_pos hch, hra, hwp]
        | none =>
          cases br with
          | some k5 =>
            refine Or.inr ⟨des, ces ++ wes ++ bes, ?_, hdes⟩
            simp [mainRun, hdp, if_pos hch, hra, hwp, hbp]
          | none =>
            refine Or.inr ⟨des, ces ++ wes ++ bes, ?_, hdes⟩
            simp [mainRun, hdp, if_pos hch, hra, hwp, hbp]
    · refine Or.inl ⟨des, ?_, hdes⟩
      simp [mainRun, hdp, if_neg hch]

/-! ### Claim theorems about the patcher -/

/-- C1: the patch operation is idempotent.  For every valid `PatchRule`
and every contents `c` (absent contents are the empty list), applying
`patch` a second time to its own output returns that output unchanged
(stated via `bind`: a failing first application propagates its error);
operationally, when the contents already contain the rule's import
marker, `patch` returns the contents unchanged. -/
theorem patch_idempotent (r : PatchRule) (c : List Char) (hv : r.valid) :
    ((patch c r).bind fun o => patch o r) = patch c r ∧
    (containsSubstr c r.importMarker = true → patch c r = .ok c) := by
  have hm : r.malformed = false := hv.1
  constructor
  · cases hp : patch c r with
    | error e => rfl
    | ok o =>
      have hco := patch_ok_contains r c o hv hp
      show patch o r = Except.ok o
      simp [patch, hm, hco]
  · intro hc
    simp [patch, hm, hc]


theorem patch_idempotent_witness :
    ((patch (("plugins: [react()]").data) tailwindRule).bind
        fun o => patch o tailwindRule) =
      patch (("plugins: [react()]").data) tailwindRule ∧
    (containsSubstr (("plugins: [react()]").data) tailwindRule.importMarker = true →
      patch (("plugins: [react()]").data) tailwindRule =
        .ok (("plugins: [react()]").data)) :=
  patch_idempotent tailwindRule (("plugins: [react()]").data)
    ⟨by decide, by decide, by decide⟩

/-- C2 counterexample: contents in which `arrayKeyName` (`plugins`) never
appears followed by an array literal, for which `patch` nevertheless
returns the contents unchanged (a silent no-op) instead of signalling
`NoMatchFound` — the import-marker check of step 1 short-circuits first.
The contents are the rule's own import line. -/
theorem patch_noMatch_counterexample :
    findArray tailwindRule.arrayKeyName tailwindRule.importStatement = none ∧
    patch tailwindRule.importStatement tailwindRule =
      Except.ok tailwindRule.importStatement := by
  constructor
  · decide
  · rfl

/-- C2 amended: for contents that do not already contain the rule's own
marker, if `arrayKeyName` never appears followed by an array
literal in the import-prepended contents, `patch` signals `NoMatchFound`
(it is a total function, so it cannot crash, and it does not silently
return the contents). -/
theorem patch_noMatchFound (r : PatchRule) (c : List Char)
    (hm : r.malformed = false)
    (hc : containsSubstr c r.importMarker = false)
    (hf : findArray r.arrayKeyName (r.importStatement ++ '\n' :: c) = none) :
    patch c r = .error .noMatchFound := by
  simp [patch, hm, hc, hf]

theorem patch_noMatchFound_witness :
    patch (("export default \x7b \x7d").data) tailwindRule =
      Except.error PatchError.noMatchFound :=
  patch_noMatchFound tailwindRule (("export default \x7b \x7d").data)
    (by decide) (by decide) (by decide)


/-! ### Claim theorems about the command runner and the pipeline -/

/-- C3: the command runner fails fast.  If the i-th command of the
sequence exits with a non-zero status, then no command after position i
is executed: the executed-command trace has length at most i + 1. -/
theorem run_apps_fail_fast (ex : Nat → Option CmdResult) (ch : String → Bool) :
    ∀ (cmds : List CmdWithArgs) (n : Nat) (cwd : String) (i : Nat),
      i < cmds.length → exitsNonzeroAt ex (n + i) →
      (cmdsOf (run_apps ex ch n cwd cmds).1).length ≤ i + 1 := by
  intro cmds
  induction cmds with
  | nil => intro n cwd i hi _; simp at hi
  | cons ca rest ih =>
    intro n cwd i hi hf
    obtain ⟨c, a⟩ := ca
    rw [run_apps]
    dsimp only
    cases hex : ex n with
    | none =>
      simp only [cmdsOf_cons_exec, cmdsOf_nil, List.length_cons, List.length_nil]
      omega
    | some r =>
      dsimp only
      by_cases hs : r.success = true
      · rw [if_pos hs]
        by_cases hcm : c = "mkdir"
        · rw [if_pos hcm]
          cases a with
          | nil =>
            simp only [cmdsOf_cons_exec, cmdsOf_nil, List.length_cons, List.length_nil]
            omega
          | cons d args =>
            dsimp only
            by_cases hch : ch d = true
            · rw [if_pos hch]
              cases i with
              | zero =>
                obtain ⟨r2, hex2, hfail⟩ := hf
                rw [Nat.add_zero, hex] at hex2
                obtain rfl := Option.some.inj hex2
                rw [hfail] at hs
                simp at hs
              | succ j =>
                have hj : j < rest.length := by
                  simp only [List.length_cons] at hi
                  omega
                have hf2 : exitsNonzeroAt ex (n + 1 + j) := by
                  have he : n + 1 + j = n + (j + 1) := by omega
                  rw [he]
                  exact hf
                have hrec := ih (n + 1) d j hj hf2
                simp only [cmdsOf_cons_exec, List.length_cons]
                omega
            · rw [if_neg hch]
              simp only [cmdsOf_cons_exec, cmdsOf_nil, List.length_cons, List.length_nil]
              omega
        · rw [if_neg hcm]
          cases i with
          | zero =>
            obtain ⟨r2, hex2, hfail⟩ := hf
            rw [Nat.add_zero, hex] at hex2
            obtain rfl := Option.some.inj hex2
            rw [hfail] at hs
            simp at hs
          | succ j =>
            have hj : j < rest.length := by
              simp only [List.length_cons] at hi
              omega
            have hf2 : exitsNonzeroAt ex (n + 1 + j) := by
              have he : n + 1 + j = n + (j + 1) := by omega
              rw [he]
              exact hf
            have hrec := ih (n + 1) cwd j hj hf2
            simp only [cmdsOf_cons_exec, List.length_cons]
            omega
      · rw [if_neg hs]
        simp only [cmdsOf_cons_exec, cmdsOf_nil, List.length_cons, List.length_nil]
        omega

theorem run_apps_fail_fast_witness :
    (cmdsOf (run_apps (fun n => some ⟨decide (n = 0), some 1⟩) (fun _ => true) 0 ("w")
        [(("a"), []), (("b"), []), (("c"), [])]).1).length ≤ 1 + 1 :=
  run_apps_fail_fast (fun n => some ⟨decide (n = 0), some 1⟩) (fun _ => true)
    [(("a"), []), (("b"), []), (("c"), [])] 0 ("w") 1 (by decide)
    ⟨⟨decide ((1 : Nat) = 0), some 1⟩, rfl, by decide⟩

/-- C4 counterexample: the `mkdir` special case is performed inside the
runner `run_apps` itself, not by its caller: running the runner alone on
a single successful `mkdir sub` command moves the runner's working
directory from `/start` to `sub`, while the caller's pipeline `apps`
contains no `mkdir` command at all. -/
theorem mkdir_in_runner_counterexample :
    (run_apps (fun _ => some ⟨true, some 0⟩) (fun _ => true) 0 ("/start")
        [(("mkdir"), [("sub")])]).2.1 = ("sub") ∧
    (("sub") : String) ≠ ("/start") ∧
    apps.all (fun q => !(q.1 == "mkdir")) = true :=
  ⟨rfl, by decide, by decide⟩

/-- C4 amended: the special case for the command name `mkdir` is
performed by the command runner `run_apps` itself (src/main.rs lines
88–102), not by its caller: after a successful `mkdir`, the runner
changes the working directory to the command's first argument and runs
the remaining commands there. -/
theorem run_apps_mkdir_chdir (ex : Nat → Option CmdResult) (ch : String → Bool)
    (n : Nat) (cwd d : String) (args : List String) (rest : List CmdWithArgs)
    (r : CmdResult) (hex : ex n = some r) (hs : r.success = true)
    (hch : ch d = true) :
    run_apps ex ch n cwd ((("mkdir"), d :: args) :: rest) =
      (Event.exec ("mkdir") (d :: args) cwd :: (run_apps ex ch (n + 1) d rest).1,
       (run_apps ex ch (n + 1) d rest).2) := by
  rw [run_apps, hex]
  simp [hs, hch]

theorem run_apps_mkdir_chdir_witness :
    run_apps (fun _ => some ⟨true, some 0⟩) (fun _ => true) 0 ("/w")
        [(("mkdir"), [("sub")])] =
      (Event.exec ("mkdir") [("sub")] ("/w") ::
        (run_apps (fun _ => some ⟨true, some 0⟩) (fun _ => true) 1 ("sub") []).1,
       (run_apps (fun _ => some ⟨true, some 0⟩) (fun _ => true) 1 ("sub") []).2) :=
  run_apps_mkdir_chdir (fun _ => some ⟨true, some 0⟩) (fun _ => true) 0 ("/w") ("sub")
    [] [] ⟨true, some 0⟩ rfl rfl rfl

/-- C5 counterexample: on a command that exits with status 1, `run_apps`
does not return an `Err` value — it panics (aborting the process), the
panic message carrying the program name and exit code. -/
theorem run_apps_err_counterexample :
    (run_apps (fun _ => some ⟨false, some 1⟩) (fun _ => true) 0 ("w")
        [(("false"), [])]).2.2 =
      RunReturn.panicked (PanicKind.exitFailure ("false") (some 1)) := rfl

/-- C5 amended: `run_apps` is declared with a `Result` return type but
never returns an error value: for every input its returned value is never
`Err`, and on a first command that exits non-zero it aborts the process
by panicking, the panic carrying the failing program's name and its exit
code. -/
theorem run_apps_result_amended :
    (∀ (ex : Nat → Option CmdResult) (ch : String → Bool) (cmds : List CmdWithArgs)
      (n : Nat) (cwd : String) (c : String) (k : Option Int),
      (run_apps ex ch n cwd cmds).2.2 ≠ .err c k) ∧
    (∀ (ex : Nat → Option CmdResult) (ch : String → Bool) (n : Nat) (cwd : String)
      (c : String) (a : List String) (rest : List CmdWithArgs) (r : CmdResult),
      ex n = some r → r.success = false →
      (run_apps ex ch n cwd ((c, a) :: rest)).2.2 =
        .panicked (.exitFailure c r.code)) := by
  constructor
  · intro ex ch cmds n cwd c k
    exact run_apps_no_err ex ch cmds n cwd c k
  · intro ex ch n cwd c a rest r hex hs
    rw [run_apps]
    dsimp only
    rw [hex]
    dsimp only
    rw [if_neg (by simp [hs])]

theorem run_apps_result_amended_witness :
    (run_apps (fun _ => some ⟨false, some 1⟩) (fun _ => true) 0 ("w")
        [(("git"), [("init")])]).2.2 =
      RunReturn.panicked (PanicKind.exitFailure ("git") (some 1)) :=
  (run_apps_result_amended).2 (fun _ => some ⟨false, some 1⟩) (fun _ => true) 0 ("w")
    ("git") [("init")] [] ⟨false, some 1⟩ rfl rfl

/-- C6 counterexample: a run whose first external command (`git`) exits
with status 1 terminates through a panic, and the process exit code is
the Rust panic exit code 101, not 1. -/
theorem exit_code_counterexample :
    (mainRun ("proj") (fun _ => true) (fun _ => true)
        (fun _ => some ⟨false, some 1⟩) (fun _ => true) (fun _ => [])).outcome =
      MainOutcome.panicked (PanicKind.exitFailure ("git") (some 1)) ∧
    exitCode (mainRun ("proj") (fun _ => true) (fun _ => true)
        (fun _ => some ⟨false, some 1⟩) (fun _ => true) (fun _ => [])).outcome = 101 ∧
    (101 : Nat) ≠ 1 :=
  ⟨rfl, rfl, by decide⟩

/-- C6 amended: on any failure — external command failure, file-write
failure, or any other panic site — the tool terminates abnormally via a
panic, and the process exit code is the Rust panic exit code 101: it is
non-zero, but it is not 1. -/
theorem exit_code_amended (p : String) (cd ch : String → Bool)
    (ex : Nat → Option CmdResult) (w : String → Bool) (bin : String → List Nat)
    (h : (mainRun p cd ch ex w bin).outcome ≠ MainOutcome.ok) :
    exitCode (mainRun p cd ch ex w bin).outcome = 101 ∧
    exitCode (mainRun p cd ch ex w bin).outcome ≠ 0 ∧
    exitCode (mainRun p cd ch ex w bin).outcome ≠ 1 := by
  cases ho : (mainRun p cd ch ex w bin).outcome with
  | ok => exact absurd ho h
  | panicked k =>
    refine ⟨rfl, ?_, ?_⟩
    · show (101 : Nat) ≠ 0
      decide
    · show (101 : Nat) ≠ 1
      decide

theorem exit_code_amended_witness :
    exitCode (mainRun ("q") (fun _ => false) (fun _ => true)
        (fun _ => none) (fun _ => true) (fun _ => [])).outcome = 101 ∧
    exitCode (mainRun ("q") (fun _ => false) (fun _ => true)
        (fun _ => none) (fun _ => true) (fun _ => [])).outcome ≠ 0 ∧
    exitCode (mainRun ("q") (fun _ => false) (fun _ => true)
        (fun _ => none) (fun _ => true) (fun _ => [])).outcome ≠ 1 :=
  exit_code_amended ("q") (fun _ => false) (fun _ => true) (fun _ => none)
    (fun _ => true) (fun _ => []) (by decide)

/-- C7: no step is ever retried and every failure terminates the process.
The executed commands of any `run_apps` call form an initial segment of
the input sequence (each command runs at most once, in order), and any
non-ok outcome of the tool is a panic — an immediate abnormal process
termination with the non-zero exit code 101, whose payload is the data of
the human-readable panic message. -/
theorem no_retry_and_fail_terminates :
    (∀ (ex : Nat → Option CmdResult) (ch : String → Bool) (cmds : List CmdWithArgs)
      (n : Nat) (cwd : String),
      ∃ k, cmdsOf (run_apps ex ch n cwd cmds).1 = cmds.take k) ∧
    (∀ (p : String) (cd ch : String → Bool) (ex : Nat → Option CmdResult)
      (w : String → Bool) (bin : String → List Nat),
      (mainRun p cd ch ex w bin).outcome ≠ MainOutcome.ok →
      ∃ kind, (mainRun p cd ch ex w bin).outcome = MainOutcome.panicked kind ∧
        exitCode (MainOutcome.panicked kind) ≠ 0) := by
  constructor
  · intro ex ch cmds n cwd
    exact run_apps_take ex ch cmds n cwd
  · intro p cd ch ex w bin h
    cases ho : (mainRun p cd ch ex w bin).outcome with
    | ok => exact absurd ho h
    | panicked k =>
      refine ⟨k, rfl, ?_⟩
      show (101 : Nat) ≠ 0
      decide

theorem no_retry_and_fail_terminates_witness :
    (∃ k, cmdsOf (run_apps (fun _ => some ⟨true, some 0⟩) (fun _ => true) 0 ("w")
        [(("git"), [("init")])]).1 =
      List.take k [((("git") : String), [("init")])]) ∧
    ∃ kind,
      (mainRun ("z") (fun _ => false) (fun _ => true) (fun _ => none)
          (fun _ => true) (fun _ => [])).outcome = MainOutcome.panicked kind ∧
      exitCode (MainOutcome.panicked kind) ≠ 0 :=
  ⟨(no_retry_and_fail_terminates).1 (fun _ => some ⟨true, some 0⟩) (fun _ => true)
      [(("git"), [("init")])] 0 ("w"),
   (no_retry_and_fail_terminates).2 ("z") (fun _ => false) (fun _ => true)
      (fun _ => none) (fun _ => true) (fun _ => []) (by decide)⟩

/-- C8: every template-catalog file is written verbatim.  In every run,
any text-write event carries exactly a `(name, contents)` pair of the
static text catalog and any binary-write event carries exactly a
`(path, bytes)` pair of the binary catalog — no patching or
transformation is applied; and on a successful run every catalog entry is
written, in the project directory. -/
theorem catalog_written_verbatim :
    ∀ (p : String) (cd ch : String → Bool) (ex : Nat → Option CmdResult)
      (w : String → Bool) (bin : String → List Nat),
      (∀ e ∈ (mainRun p cd ch ex w bin).trace,
        (∀ n c cw, e = Event.write n c cw → (n, c) ∈ textPairs) ∧
        (∀ n b cw, e = Event.writeBin n b cw → (n, b) ∈ binCatalog bin)) ∧
      ((mainRun p cd ch ex w bin).outcome = MainOutcome.ok →
        (∀ f ∈ textCatalog,
          Event.write f.name f.contents p ∈ (mainRun p cd ch ex w bin).trace) ∧
        ∀ nb ∈ binCatalog bin,
          Event.writeBin nb.1 nb.2 p ∈ (mainRun p cd ch ex w bin).trace) := by
  intro p cd ch ex w bin
  constructor
  · intro e he
    rcases mainRun_event_mem p cd ch ex w bin e he with
      ⟨q, rfl⟩ | rfl | ⟨c, a, rfl⟩ | ⟨f, hf, rfl⟩ | ⟨nb, hnb, rfl⟩
    · exact ⟨fun n c cw h => by simp at h, fun n b cw h => by simp at h⟩
    · exact ⟨fun n c cw h => by simp at h, fun n b cw h => by simp at h⟩
    · exact ⟨fun n c cw h => by simp at h, fun n b cw h => by simp at h⟩
    · refine ⟨fun n c cw h => ?_, fun n b cw h => by simp at h⟩
      obtain ⟨rfl, rfl, rfl⟩ := by simpa using h
      exact List.mem_map.mpr ⟨f, hf, rfl⟩
    · obtain ⟨n1, b1⟩ := nb
      refine ⟨fun n c cw h => by simp at h, fun n b cw h => ?_⟩
      obtain ⟨rfl, rfl, rfl⟩ := by simpa using h
      exact hnb
  · intro ho
    obtain ⟨des, ces, htr⟩ := mainRun_ok_trace p cd ch ex w bin ho
    constructor
    · intro f hf
      rw [htr]
      refine List.mem_append.mpr (Or.inr ?_)
      refine List.mem_cons.mpr (Or.inr ?_)
      refine List.mem_append.mpr (Or.inl ?_)
      refine List.mem_append.mpr (Or.inr ?_)
      exact List.mem_map.mpr ⟨f, hf, rfl⟩
    · intro nb hnb
      rw [htr]
      refine List.mem_append.mpr (Or.inr ?_)
      refine List.mem_cons.mpr (Or.inr ?_)
      refine List.mem_append.mpr (Or.inr ?_)
      exact List.mem_map.mpr ⟨nb, hnb, rfl⟩

theorem catalog_written_verbatim_witness :
    Event.write git_ignore.name git_ignore.contents ("p") ∈
      (mainRun ("p") (fun _ => true) (fun _ => true) (fun _ => some ⟨true, some 0⟩)
        (fun _ => true) (fun _ => [])).trace ∧
    ∀ n c cw, Event.chdir ("p") = Event.write n c cw → (n, c) ∈ textPairs := by
  constructor
  · exact ((catalog_written_verbatim ("p") (fun _ => true) (fun _ => true)
      (fun _ => some ⟨true, some 0⟩) (fun _ => true) (fun _ => [])).2 rfl).1
      git_ignore (by simp [textCatalog])
  · exact ((catalog_written_verbatim ("p") (fun _ => true) (fun _ => true)
      (fun _ => some ⟨true, some 0⟩) (fun _ => true) (fun _ => [])).1
      (Event.chdir ("p")) (by decide)).1

set_option maxRecDepth 100000 in
/-- C9: the generated `vite.config.js` is the fixed constant
`vite_config`: its `plugins` array literal contains exactly the single
element `react()`; the import `@tailwindcss/vite` does not occur in it
and neither does a `tailwindcss()` element; and no config-file patching
is performed on any written file — in every run every text-write event
carries a verbatim catalog pair. -/
theorem vite_config_fixed :
    vite_config.name = ("vite.config.js") ∧
    (findArray (("plugins").data) vite_config.contents.data).map (fun x => x.2.1) =
      some (("react()").data) ∧
    containsSubstr vite_config.contents.data (("@tailwindcss/vite").data) = false ∧
    containsSubstr vite_config.contents.data (("tailwindcss()").data) = false ∧
    ∀ (p : String) (cd ch : String → Bool) (ex : Nat → Option CmdResult)
      (w : String → Bool) (bin : String → List Nat),
      ((mainRun p cd ch ex w bin).trace.all Event.verbatimText) = true := by
  refine ⟨rfl, by decide, by decide, by decide, ?_⟩
  intro p cd ch ex w bin
  rw [List.all_eq_true]
  intro e he
  rcases mainRun_event_mem p cd ch ex w bin e he with
    ⟨q, rfl⟩ | rfl | ⟨c, a, rfl⟩ | ⟨f, hf, rfl⟩ | ⟨nb, hnb, rfl⟩
  · rfl
  · rfl
  · rfl
  · simp only [Event.verbatimText, decide_eq_true_eq]
    exact List.mem_map.mpr ⟨f, hf, rfl⟩
  · rfl

/-- C10: the working directory is set to the project path before any
external command runs and before any file is written: in every run no
command-execution or write event precedes the change-of-directory event
in the trace, and every command-execution and write event is recorded
with the project path as the current working directory. -/
theorem chdir_before_actions :
    ∀ (p : String) (cd ch : String → Bool) (ex : Nat → Option CmdResult)
      (w : String → Bool) (bin : String → List Nat),
      (((mainRun p cd ch ex w bin).trace.takeWhile fun e => !(e.isChdir)).all
        fun e => !(e.isAction)) = true ∧
      ((mainRun p cd ch ex w bin).trace.all fun e => e.cwdOk p) = true := by
  intro p cd ch ex w bin
  constructor
  · rcases mainRun_trace_shape p cd ch ex w bin with ⟨des, htr, hdes⟩ | ⟨des, rest, htr, hdes⟩
    · rw [htr, List.all_eq_true]
      intro e he
      obtain ⟨q, rfl⟩ := hdes e (List.takeWhile_subset _ he)
      rfl
    · rw [htr]
      rw [takeWhile_stop _ des (Event.chdir p) rest
        (fun y hy => by obtain ⟨q, rfl⟩ := hdes y hy; rfl) rfl]
      rw [List.all_eq_true]
      intro e he
      obtain ⟨q, rfl⟩ := hdes e he
      rfl
  · rw [List.all_eq_true]
    intro e he
    rcases mainRun_event_mem p cd ch ex w bin e he with
      ⟨q, rfl⟩ | rfl | ⟨c, a, rfl⟩ | ⟨f, hf, rfl⟩ | ⟨nb, hnb, rfl⟩
    · rfl
    · rfl
    · simp [Event.cwdOk]
    · simp [Event.cwdOk]
    · simp [Event.cwdOk]


end Project